import Mathlib

/-!
Verification development for the pane skill launcher.

This file gives a shallow embedding of the core data model and operations of
the pane terminal launcher (manifest validation, skill discovery with tier
precedence, fuzzy-search filtering, the application state machine, bounded
output capture, and environment preparation), translated from the Rust
sources, together with theorems settling the stated properties.

Modelling conventions:
- Rust String is Lean String; PathBuf is modelled as String (only equality
  and presence matter to the properties below).
- Vec is List; usize is Nat (all the arithmetic involved is non-wrapping:
  saturating_sub is Nat subtraction, min/mod/take are the Lean counterparts).
- HashMap/HashSet are modelled as association lists / lists, used purely
  through lookup and membership, which is all the source uses them for
  (iteration order of the final discovery collection is unspecified in the
  source and unused by any property).
- The nucleo fuzzy matcher is an external crate; its per-field scoring
  function is an abstract parameter (fieldScore). Everything the source
  builds on top of it (field union, max-score combination, exclusion of
  non-matching skills, stable descending sort) is embedded concretely.
-/

namespace Pane

/-- Mode of terminal interaction declared by a skill (ui.mode in the
manifest): Tui takes over the terminal, Inline is captured. -/
inductive UiMode where
  | Tui
  | Inline
deriving DecidableEq

/-- UI configuration of a manifest (ui section). -/
structure UiConfig where
  mode : UiMode
  fullscreen : Bool
deriving DecidableEq

/-- Context-passing flags of a manifest (context section). -/
structure ContextConfig where
  pass_cwd : Bool
  pass_git_root : Bool
  pass_project_name : Bool
  pass_stdin_json : Bool
deriving DecidableEq

/-- Default ContextConfig (impl Default in manifest.rs): the three
environment-passing flags default to true, the stdin-JSON flag to false. -/
def ContextConfig.defaultFlags : ContextConfig :=
  { pass_cwd := true, pass_git_root := true, pass_project_name := true,
    pass_stdin_json := false }

/-- Declarative description of one skill, parsed from pane-skill.yaml
(struct SkillManifest in manifest.rs). -/
structure SkillManifest where
  id : String
  name : String
  description : String
  version : String
  exec : String
  args : List String
  tags : List String
  estimated_time : Option String
  ui : UiConfig
  context : ContextConfig
deriving DecidableEq

/-- Character class of the id validation regex [a-z0-9-]. -/
def isIdChar (c : Char) : Bool :=
  (Char.ofNat 97 ≤ c && c ≤ Char.ofNat 122) ||
  (Char.ofNat 48 ≤ c && c ≤ Char.ofNat 57) ||
  c = Char.ofNat 45

/-- Anchored match of the regex used by validate: a string matches
the pattern of one-or-more characters of the class [a-z0-9-] iff it is
non-empty and every character is in the class. -/
def idRegexMatch (s : String) : Bool :=
  !s.isEmpty && s.data.all isIdChar

/-- Validation of a manifest (SkillManifest::validate in manifest.rs):
each required field is checked with is_empty, in source order, then the id
is checked against the regex. -/
def SkillManifest.validate (m : SkillManifest) : Except String Unit :=
  if m.id.isEmpty then Except.error "Skill id cannot be empty"
  else if m.name.isEmpty then Except.error "Skill name cannot be empty"
  else if m.description.isEmpty then Except.error "Skill description cannot be empty"
  else if m.exec.isEmpty then Except.error "Skill exec cannot be empty"
  else if !idRegexMatch m.id then Except.error "Invalid skill id"
  else Except.ok ()

/-- Success test on a Rust Result-like value. -/
def resultIsOk (r : Except String Unit) : Bool :=
  match r with
  | Except.ok _ => true
  | Except.error _ => false

/-- Spec-side notion used by the claim under test: a string is empty after
trimming whitespace iff every character is whitespace. -/
def blankAfterTrim (s : String) : Bool :=
  s.data.all Char.isWhitespace

/-- A fully concrete manifest whose name is a single space and whose other
fields are valid; used to separate the trimming reading of the spec from
the untrimmed check of the source. -/
def wsNameManifest : SkillManifest :=
  { id := "x", name := " ", description := "d", version := "0.1.0",
    exec := "e", args := [], tags := [], estimated_time := none,
    ui := { mode := UiMode.Tui, fullscreen := true },
    context := ContextConfig.defaultFlags }

/-- Tier a skill was discovered from (enum SkillSource in model.rs),
ordered low to high precedence: System, User, Project. -/
inductive SkillSource where
  | System
  | User
  | Project
deriving DecidableEq

/-- Discovered skill: a manifest plus its source tier and manifest path
(struct Skill in model.rs). -/
structure Skill where
  manifest : SkillManifest
  source : SkillSource
  manifest_path : String
deriving DecidableEq

/-- Manifest-plus-path pair as produced by walking one discovery root,
before the tier tag is attached (discover_in_directory pushes each parsed
manifest with the directory's source). -/
structure RawSkill where
  manifest : SkillManifest
  manifest_path : String
deriving DecidableEq

/-- Skills of one directory tagged with that directory's source tier
(the Skill construction inside discover_in_directory). -/
def tagSkills (l : List RawSkill) (src : SkillSource) : List Skill :=
  l.map (fun r => { manifest := r.manifest, source := src,
                    manifest_path := r.manifest_path })

/-- Map insertion keyed by manifest id (skill_map.insert in
discover_skills): any existing binding of the id is dropped and the new
binding added; the association list stands for the HashMap, which the
source uses only through keyed insertion and final values. -/
def insertSkill (m : List (String × Skill)) (s : Skill) : List (String × Skill) :=
  m.filter (fun p => p.1 ≠ s.manifest.id) ++ [(s.manifest.id, s)]

/-- Discovery merge (discover_skills in loader.rs): per-tier skill lists
are inserted into one map keyed by id, tiers processed in ascending
precedence order (System, then User, then Project), and the map's values
are returned. -/
def discover_skills (sys usr proj : List RawSkill) : List Skill :=
  ((tagSkills sys SkillSource.System ++ tagSkills usr SkillSource.User ++
    tagSkills proj SkillSource.Project).foldl insertSkill []).map Prod.snd

/-- Lookup of a key in the association-list map. -/
def lookupId (m : List (String × Skill)) (k : String) : Option Skill :=
  (m.find? (fun p => p.1 = k)).map Prod.snd

/-- First skill of a collection carrying a given manifest id. -/
def findSkill (l : List Skill) (k : String) : Option Skill :=
  l.find? (fun s => s.manifest.id = k)

/-- Last skill of a list carrying a given manifest id (the one whose map
insertion survives). -/
def lastWith (l : List Skill) (k : String) : Option Skill :=
  l.reverse.find? (fun s => s.manifest.id = k)

/-- Test whether a per-tier input contains a manifest with the given id. -/
def hasIdR (l : List RawSkill) (k : String) : Bool :=
  l.any (fun r => r.manifest.id = k)

/-- Well-formedness of the id-keyed map: keys are pairwise distinct and
each binding's key is its skill's manifest id. -/
def WFmap (m : List (String × Skill)) : Prop :=
  (m.map Prod.fst).Nodup ∧ ∀ p ∈ m, p.1 = p.2.manifest.id

/-- Combined fuzzy score of one skill (score_skill in search.rs): the
searchable fields are the display name, the id, the space-joined tags when
the tag list is non-empty, and the description; the result is the maximum
matched field score, seeding the running maximum with zero as the source
does, and a skill with no matching field has no score. The per-field
scorer fieldScore abstracts the external nucleo matcher applied to the
query pattern. -/
def score_skill (fieldScore : String → Option Nat) (s : Skill) : Option Nat :=
  let fields := [s.manifest.name, s.manifest.id] ++
    (if s.manifest.tags.isEmpty then []
     else [String.intercalate " " s.manifest.tags]) ++
    [s.manifest.description]
  match fields.filterMap fieldScore with
  | [] => none
  | scores => some (scores.foldl max 0)

/-- Fuzzy filter (filter_skills in search.rs): an empty query returns all
indices in collection order; otherwise each skill is scored, skills with
no score are dropped, the (index, score) pairs are sorted by descending
score with a stable sort (Rust sort_by is stable), and the indices are
returned. -/
def filter_skills (fieldScore : String → String → Option Nat)
    (query : String) (skills : List Skill) : List Nat :=
  if query.isEmpty then List.range skills.length
  else
    let scored := skills.enum.filterMap
      (fun p => (score_skill (fieldScore query) p.2).map (fun sc => (p.1, sc)))
    (scored.mergeSort (fun a b => decide (b.2 ≤ a.2))).map Prod.fst

/-- View-mode filter tag (enum ViewMode in state.rs). -/
inductive ViewMode where
  | All
  | Favorites
  | Recent
deriving DecidableEq

/-- Modal input tag (enum InputMode in state.rs). -/
inductive InputMode where
  | Normal
  | Insert
deriving DecidableEq

/-- Configured limit used by the state machine: the max_recent_skills
field of the user Config (its other fields are theme, language and
rendering settings that the modelled operations never read). -/
structure Config where
  max_recent_skills : Nat
deriving DecidableEq

/-- Mutable session state (struct AppState in state.rs), restricted to the
fields the modelled operations read or write; the cached theme and
translations, the quit and inline-execution flags, and the output-panel
slot are untouched by and irrelevant to the properties below. The
favorites HashSet is modelled as a list used only through membership. -/
structure AppState where
  skills : List Skill
  filtered_skills : List Nat
  selected_index : Nat
  search_query : String
  view_mode : ViewMode
  input_mode : InputMode
  favorites : List String
  recent : List String
  config : Config
  scroll_offset : Nat
deriving DecidableEq

/-- Step 1 of AppState::apply_view_filter: the indices admitted by the
current view mode, computed exactly as the source does, by enumerating
the skills, filtering on the mode's predicate and keeping the indices
(All short-circuits to the full range; Recent takes the first
max_recent_skills entries of the recency list as its membership set). -/
def viewFilteredCode (s : AppState) : List Nat :=
  match s.view_mode with
  | ViewMode.All => List.range s.skills.length
  | ViewMode.Favorites =>
      (s.skills.enum.filter
        (fun p => s.favorites.contains p.2.manifest.id)).map Prod.fst
  | ViewMode.Recent =>
      let recent_set := s.recent.take s.config.max_recent_skills
      (s.skills.enum.filter
        (fun p => recent_set.contains p.2.manifest.id)).map Prod.fst

/-- Re-filter (AppState::apply_view_filter in state.rs): the view-admitted
indices are computed first; with an empty query they are the filtered
view, otherwise the fuzzy ranking over the whole collection is restricted
to the view-admitted indices; selection and list scroll reset to zero. -/
def apply_view_filter (fieldScore : String → String → Option Nat)
    (s : AppState) : AppState :=
  { s with
    filtered_skills :=
      if s.search_query.isEmpty then viewFilteredCode s
      else (filter_skills fieldScore s.search_query s.skills).filter
            (fun i => (viewFilteredCode s).contains i),
    selected_index := 0,
    scroll_offset := 0 }

/-- Search-query replacement (AppState::set_search_query): store the query
and re-filter. -/
def set_search_query (fieldScore : String → String → Option Nat)
    (s : AppState) (query : String) : AppState :=
  apply_view_filter fieldScore { s with search_query := query }

/-- Search-query character append (AppState::append_to_search): push the
character and re-filter. -/
def append_to_search (fieldScore : String → String → Option Nat)
    (s : AppState) (ch : Char) : AppState :=
  apply_view_filter fieldScore { s with search_query := s.search_query.push ch }

/-- Search-query backspace (AppState::remove_from_search): a no-op on an
empty query, otherwise drop the last character and re-filter. -/
def remove_from_search (fieldScore : String → String → Option Nat)
    (s : AppState) : AppState :=
  if s.search_query.isEmpty then s
  else apply_view_filter fieldScore
    { s with search_query := s.search_query.dropRight 1 }

/-- View-mode cycling (AppState::cycle_view_mode): All to Favorites to
Recent to All; the filtered view itself is not recomputed here. -/
def cycle_view_mode (s : AppState) : AppState :=
  { s with view_mode :=
      match s.view_mode with
      | ViewMode.All => ViewMode.Favorites
      | ViewMode.Favorites => ViewMode.Recent
      | ViewMode.Recent => ViewMode.All }

/-- Trailing step of move_selection_up: the scroll offset is pulled down
to the selection when the (already updated) selection moved above it. -/
def pullScrollToSelection (s : AppState) : AppState :=
  if s.selected_index < s.scroll_offset then
    { s with scroll_offset := s.selected_index }
  else s

/-- Trailing step of move_selection_down: the scroll offset is reset only
when the (already updated) selection wrapped to the top. -/
def resetScrollOnWrap (s : AppState) : AppState :=
  if s.selected_index = 0 then { s with scroll_offset := 0 } else s

/-- Single-step selection up (AppState::move_selection_up): a no-op on an
empty filtered view; wraps from the top to the bottom; afterwards the
scroll offset is pulled down when the selection moved above it. -/
def move_selection_up (s : AppState) : AppState :=
  if s.filtered_skills.isEmpty then s
  else pullScrollToSelection
    { s with selected_index :=
        if s.selected_index = 0 then s.filtered_skills.length - 1
        else s.selected_index - 1 }

/-- Single-step selection down (AppState::move_selection_down): a no-op on
an empty filtered view; advances modulo the length; the scroll offset is
reset only when the selection wraps to the top. -/
def move_selection_down (s : AppState) : AppState :=
  if s.filtered_skills.isEmpty then s
  else resetScrollOnWrap
    { s with selected_index :=
        (s.selected_index + 1) % s.filtered_skills.length }

/-- Scroll maintenance (AppState::update_scroll_offset): a no-op for a
zero visible height; pulls the offset down to the selection when the
selection is above it, pushes it forward by the overshoot when the
selection passed the bottom of the window. -/
def update_scroll_offset (s : AppState) (visible_height : Nat) : AppState :=
  if visible_height = 0 then s
  else if s.selected_index < s.scroll_offset then
    { s with scroll_offset := s.selected_index }
  else if s.scroll_offset + visible_height ≤ s.selected_index then
    { s with scroll_offset := s.selected_index - visible_height + 1 }
  else s

/-- Page selection down (AppState::move_selection_page_down): a no-op on
an empty filtered view; advances by the page size, clamped at the last
index, then maintains the scroll offset with the page size as the visible
height. -/
def move_selection_page_down (s : AppState) (page_size : Nat) : AppState :=
  if s.filtered_skills.isEmpty then s
  else
    update_scroll_offset
      { s with
        selected_index := min (s.selected_index + page_size)
          (s.filtered_skills.length - 1) }
      page_size

/-- Page selection up (AppState::move_selection_page_up): a no-op on an
empty filtered view; moves back by the page size with saturating
subtraction, then maintains the scroll offset with the page size as the
visible height. -/
def move_selection_page_up (s : AppState) (page_size : Nat) : AppState :=
  if s.filtered_skills.isEmpty then s
  else
    update_scroll_offset
      { s with selected_index := s.selected_index - page_size }
      page_size

/-- Recency-list update (AppState::add_to_recent): remove any existing
occurrence of the id, insert it at the front, and truncate to the
configured maximum when the length exceeds it. -/
def add_to_recent (s : AppState) (skill_id : String) : AppState :=
  { s with recent :=
      if s.config.max_recent_skills <
          (skill_id :: s.recent.filter (fun id => id ≠ skill_id)).length
      then (skill_id :: s.recent.filter (fun id => id ≠ skill_id)).take
            s.config.max_recent_skills
      else skill_id :: s.recent.filter (fun id => id ≠ skill_id) }

/-- Truth of a skill predicate at a collection index: false out of range. -/
def predAt (l : List Skill) (p : Skill → Bool) (i : Nat) : Bool :=
  ((l.get? i).map p).getD false

/-- Spec-side admission predicate of the view mode, in the words of the
specification: All admits every skill, Favorites admits a skill whose id
is in the favorites set, Recent admits a skill whose id is among the first
max_recent_skills entries of the recency list. -/
def viewPred (s : AppState) (sk : Skill) : Bool :=
  match s.view_mode with
  | ViewMode.All => true
  | ViewMode.Favorites => s.favorites.contains sk.manifest.id
  | ViewMode.Recent =>
      (s.recent.take s.config.max_recent_skills).contains sk.manifest.id

/-- Spec-side view-admitted index set: the indices of the collection, in
ascending order, whose skill the view mode admits. -/
def viewAdmittedSpec (s : AppState) : List Nat :=
  (List.range s.skills.length).filter (predAt s.skills (viewPred s))

/-- Selection invariant of the state machine: in a non-empty filtered
view the selection index is in range; in an empty filtered view it is
zero. -/
def SelInv (s : AppState) : Prop :=
  (s.filtered_skills ≠ [] → s.selected_index < s.filtered_skills.length) ∧
  (s.filtered_skills = [] → s.selected_index = 0)

instance (s : AppState) : Decidable (SelInv s) := by
  unfold SelInv
  infer_instance

/-- Fixed manifest used to build concrete witness states: only the id and
name vary. -/
def demoManifest (i n : String) : SkillManifest :=
  { id := i, name := n, description := "d", version := "0.1.0", exec := "e",
    args := [], tags := [], estimated_time := none,
    ui := { mode := UiMode.Tui, fullscreen := true },
    context := ContextConfig.defaultFlags }

/-- Fixed skill wrapper around demoManifest. -/
def demoSkill (i n : String) : Skill :=
  { manifest := demoManifest i n, source := SkillSource.Project,
    manifest_path := "p" }

/-- Concrete state with three skills, a freshly filtered full view and
both offsets zero. -/
def scrollDemoState : AppState :=
  { skills := [demoSkill "a" "A", demoSkill "b" "B", demoSkill "c" "C"],
    filtered_skills := [0, 1, 2], selected_index := 0, search_query := "",
    view_mode := ViewMode.All, input_mode := InputMode.Normal,
    favorites := [], recent := [], config := { max_recent_skills := 10 },
    scroll_offset := 0 }

/-- Fixed output ceiling (MAX_OUTPUT_SIZE in output.rs): ten mebibytes. -/
def MAX_OUTPUT_SIZE : Nat := 10 * 1024 * 1024

/-- Byte accumulator with a capacity ceiling (struct OutputBuffer in
output.rs); bytes are modelled as Nat. -/
structure OutputBuffer where
  buffer : List Nat
  truncated : Bool
  size_limit : Nat
deriving DecidableEq

/-- Constructor with an explicit ceiling (OutputBuffer::with_limit). -/
def OutputBuffer.with_limit (size_limit : Nat) : OutputBuffer :=
  { buffer := [], truncated := false, size_limit := size_limit }

/-- Default constructor (OutputBuffer::new): the 10 MiB ceiling. -/
def OutputBuffer.newBuffer : OutputBuffer :=
  OutputBuffer.with_limit MAX_OUTPUT_SIZE

/-- Append with ceiling enforcement (OutputBuffer::append): at capacity
the call only sets the truncation flag; within capacity the data is
appended whole when it fits the remaining space, and otherwise only the
remaining-space prefix is appended and the truncation flag is set. -/
def OutputBuffer.append (b : OutputBuffer) (data : List Nat) : OutputBuffer :=
  if b.size_limit ≤ b.buffer.length then { b with truncated := true }
  else if data.length ≤ b.size_limit - b.buffer.length then
    { b with buffer := b.buffer ++ data }
  else
    { b with
      buffer := b.buffer ++ data.take (b.size_limit - b.buffer.length),
      truncated := true }

/-- Sequence of append calls folded over a starting buffer. -/
def appendAll (b : OutputBuffer) (datas : List (List Nat)) : OutputBuffer :=
  datas.foldl OutputBuffer.append b

/-- Bytes of an ASCII string literal, for concrete append scenarios. -/
def strBytes (s : String) : List Nat :=
  s.data.map Char.toNat

/-- Per-execution context handed to a skill (struct SkillContext in
context.rs); paths are modelled as strings. -/
structure SkillContext where
  skill_id : String
  skill_name : String
  cwd : String
  git_root : Option String
  project_name : Option String
  config_path : String
  args : List String
deriving DecidableEq

/-- Environment preparation (SkillContext::prepare_environment): the id,
name and config path entries are always inserted; the working directory
entry is inserted when the manifest's pass_cwd flag is set; the git-root
and project-name entries are inserted when their flag is set and the
optional value is present. The HashMap is modelled as an association list
with the six pairwise-distinct keys. -/
def prepare_environment (ctx : SkillContext) (cc : ContextConfig) :
    List (String × String) :=
  let env := [("PANE_ID", ctx.skill_id), ("PANE_NAME", ctx.skill_name),
              ("PANE_CONFIG_PATH", ctx.config_path)]
  let env := if cc.pass_cwd then env ++ [("PANE_CWD", ctx.cwd)] else env
  let env := if cc.pass_git_root then
               match ctx.git_root with
               | some g => env ++ [("PANE_GIT_ROOT", g)]
               | none => env
             else env
  let env := if cc.pass_project_name then
               match ctx.project_name with
               | some p => env ++ [("PANE_PROJECT_NAME", p)]
               | none => env
             else env
  env

/-- Lookup of an environment variable in the prepared mapping. -/
def envLookup (env : List (String × String)) (k : String) : Option String :=
  (env.find? (fun p => p.1 = k)).map Prod.snd

/-- Trivial scorer used to instantiate the abstract fuzzy matcher in
concrete witness states. -/
def noScore : String → String → Option Nat := fun _ _ => none

/-- Raw manifest with id x and name S, standing for the System tier. -/
def tierRawS : RawSkill := { manifest := demoManifest "x" "S", manifest_path := "ps" }

/-- Raw manifest with id x and name U, standing for the User tier. -/
def tierRawU : RawSkill := { manifest := demoManifest "x" "U", manifest_path := "pu" }

/-- Raw manifest with id x and name P, standing for the Project tier. -/
def tierRawP : RawSkill := { manifest := demoManifest "x" "P", manifest_path := "pp" }

/-- Witness for C5 at a concrete buffer already at its ceiling. -/
def fullBuf : OutputBuffer :=
  { buffer := [1, 2, 3], truncated := true, size_limit := 3 }

/-- Concrete state whose recency list is the duplicate-free a, b. -/
def recentDemoState : AppState :=
  { scrollDemoState with recent := ["a", "b"] }

/-- Concrete state in Recent view mode with an empty query. -/
def recentViewDemoState : AppState :=
  { scrollDemoState with view_mode := ViewMode.Recent, recent := ["a"] }

/-- C2 (counterexample): the claim that validate errs exactly when a
required field is empty after trimming whitespace (or the id fails the
regex) is false: the manifest whose name is a single space has a name that
is empty after trimming, yet validate accepts it, because the source
checks is_empty without trimming. -/
theorem validate_trimming_claim_false :
    ¬ ((resultIsOk wsNameManifest.validate = false) ↔
        (blankAfterTrim wsNameManifest.id = true ∨
         blankAfterTrim wsNameManifest.name = true ∨
         blankAfterTrim wsNameManifest.description = true ∨
         blankAfterTrim wsNameManifest.exec = true ∨
         idRegexMatch wsNameManifest.id = false)) := by
  decide

/-- C2 (amended): validate returns an error exactly when one of id, name,
description, or exec is empty (with no whitespace trimming), or the id
does not match the anchored regex of one-or-more characters from
[a-z0-9-]; a whitespace-only name, description, or exec is accepted, while
a whitespace-only id is still rejected by the regex. -/
theorem validate_ok_iff (m : SkillManifest) :
    resultIsOk m.validate = true ↔
      (m.id.isEmpty = false ∧ m.name.isEmpty = false ∧
       m.description.isEmpty = false ∧ m.exec.isEmpty = false ∧
       idRegexMatch m.id = true) := by
  unfold SkillManifest.validate resultIsOk
  by_cases h1 : m.id.isEmpty <;> simp [h1] <;>
  by_cases h2 : m.name.isEmpty <;> simp [h2] <;>
  by_cases h3 : m.description.isEmpty <;> simp [h3] <;>
  by_cases h4 : m.exec.isEmpty <;> simp [h4] <;>
  by_cases h5 : idRegexMatch m.id <;> simp [h5]

theorem find?_filter_of_imp {α : Type} (p q : α → Bool) (l : List α)
    (h : ∀ x, p x = true → q x = true) :
    (l.filter q).find? p = l.find? p := by
  induction l with
  | nil => rfl
  | cons a t ih =>
    by_cases hq : q a
    · simp only [List.filter_cons, hq, if_true]
      by_cases hp : p a
      · simp [List.find?, hp]
      · simp only [List.find?, hp]
        exact ih
    · have hp : p a = false := by
        cases hpa : p a with
        | false => rfl
        | true => exact absurd (h a hpa) (by simp_all)
      simp only [List.filter_cons, hq, if_false, List.find?, hp]
      exact ih

theorem find?_congr_mem {α : Type} (p q : α → Bool) (l : List α)
    (h : ∀ x ∈ l, p x = q x) : l.find? p = l.find? q := by
  induction l with
  | nil => rfl
  | cons a t ih =>
    have ha := h a (by simp)
    simp only [List.find?, ha]
    cases q a with
    | true => rfl
    | false => exact ih fun x hx => h x (by simp [hx])

theorem lookupId_insertSkill (m : List (String × Skill)) (s : Skill) (k : String) :
    lookupId (insertSkill m s) k =
      if k = s.manifest.id then some s else lookupId m k := by
  unfold lookupId insertSkill
  rw [List.find?_append]
  by_cases hk : k = s.manifest.id
  · have h1 : (m.filter (fun p => p.1 ≠ s.manifest.id)).find?
        (fun p => p.1 = k) = none := by
      rw [List.find?_eq_none]
      intro x hx
      have hne := (List.mem_filter.mp hx).2
      simp only [decide_eq_true_eq] at hne ⊢
      rw [hk]
      exact hne
    rw [h1, Option.none_or]
    simp [List.find?, hk]
  · have h2 : ([(s.manifest.id, s)] : List (String × Skill)).find?
        (fun p => p.1 = k) = none := by
      rw [List.find?_eq_none]
      intro x hx
      simp only [List.mem_singleton] at hx
      subst hx
      simp only [decide_eq_true_eq]
      exact fun he => hk he.symm
    rw [h2, Option.or_none,
        find?_filter_of_imp (fun p => p.1 = k) (fun p => p.1 ≠ s.manifest.id) m]
    · simp [hk]
    · intro x hx
      simp only [decide_eq_true_eq] at hx ⊢
      rw [hx]
      exact fun he => hk he

theorem lookupId_foldl (l : List Skill) (m : List (String × Skill)) (k : String) :
    lookupId (l.foldl insertSkill m) k = (lastWith l k).or (lookupId m k) := by
  induction l generalizing m with
  | nil => simp [lastWith, Option.none_or]
  | cons a t ih =>
    have hrev : lastWith (a :: t) k =
        (lastWith t k).or ([a].find? (fun s => s.manifest.id = k)) := by
      unfold lastWith
      have : (a :: t).reverse = t.reverse ++ [a] := by simp
      rw [this, List.find?_append]
    rw [List.foldl_cons, ih, hrev, Option.or_assoc, lookupId_insertSkill]
    by_cases hk : k = a.manifest.id
    · simp [List.find?, hk, if_pos hk]
    · have : a.manifest.id = k ↔ False := by
        constructor
        · exact fun he => hk he.symm
        · exact False.elim
      simp [List.find?, hk, this]

theorem WFmap_insertSkill (m : List (String × Skill)) (s : Skill)
    (h : WFmap m) : WFmap (insertSkill m s) := by
  obtain ⟨hnd, hkey⟩ := h
  constructor
  · unfold insertSkill
    rw [List.map_append, List.nodup_append]
    refine ⟨?_, by simp, ?_⟩
    · exact ((List.filter_sublist m).map Prod.fst).nodup hnd
    · rw [List.map_singleton, List.disjoint_singleton]
      intro hmem
      obtain ⟨p, hp, hfst⟩ := List.mem_map.mp hmem
      have := (List.mem_filter.mp hp).2
      simp only [decide_eq_true_eq] at this
      exact this hfst
  · intro p hp
    unfold insertSkill at hp
    rcases List.mem_append.mp hp with hl | hr
    · exact hkey p (List.mem_of_mem_filter hl)
    · simp only [List.mem_singleton] at hr
      subst hr
      rfl

theorem WFmap_foldl (l : List Skill) (m : List (String × Skill))
    (h : WFmap m) : WFmap (l.foldl insertSkill m) := by
  induction l generalizing m with
  | nil => exact h
  | cons a t ih => exact ih _ (WFmap_insertSkill m a h)

theorem WFmap_nil : WFmap [] := by
  constructor
  · simp
  · intro p hp
    simp at hp

theorem findSkill_values (m : List (String × Skill)) (h : WFmap m) (k : String) :
    findSkill (m.map Prod.snd) k = lookupId m k := by
  unfold findSkill lookupId
  rw [List.find?_map]
  congr 1
  apply find?_congr_mem
  intro p hp
  have := h.2 p hp
  simp only [Function.comp]
  rw [← this]

theorem lastWith_tagSkills_eq_none (l : List RawSkill) (src : SkillSource)
    (k : String) (h : hasIdR l k = false) :
    lastWith (tagSkills l src) k = none := by
  unfold lastWith
  rw [List.find?_eq_none]
  intro x hx hpx
  rw [List.mem_reverse] at hx
  obtain ⟨r, hr, hxe⟩ := List.mem_map.mp hx
  simp only [decide_eq_true_eq] at hpx
  have : hasIdR l k = true := by
    unfold hasIdR
    rw [List.any_eq_true]
    refine ⟨r, hr, ?_⟩
    simp only [decide_eq_true_eq]
    rw [← hxe] at hpx
    exact hpx
  rw [h] at this
  exact Bool.false_ne_true this

theorem lastWith_tagSkills_isSome (l : List RawSkill) (src : SkillSource)
    (k : String) (h : hasIdR l k = true) :
    ∃ s, lastWith (tagSkills l src) k = some s := by
  unfold lastWith
  rw [← Option.isSome_iff_exists, List.find?_isSome]
  unfold hasIdR at h
  obtain ⟨r, hr, hrk⟩ := List.any_eq_true.mp h
  refine ⟨{ manifest := r.manifest, source := src, manifest_path := r.manifest_path },
          ?_, hrk⟩
  rw [List.mem_reverse]
  exact List.mem_map.mpr ⟨r, hr, rfl⟩

theorem lastWith_tagSkills_spec (l : List RawSkill) (src : SkillSource)
    (k : String) (s : Skill) (h : lastWith (tagSkills l src) k = some s) :
    s ∈ tagSkills l src ∧ s.source = src ∧ s.manifest.id = k := by
  have hmem : s ∈ tagSkills l src := by
    have := List.mem_of_find?_eq_some h
    rwa [List.mem_reverse] at this
  have hpred := List.find?_some h
  simp only [decide_eq_true_eq] at hpred
  obtain ⟨r, _, hre⟩ := List.mem_map.mp hmem
  exact ⟨hmem, by rw [← hre], hpred⟩

theorem discover_findSkill (sys usr proj : List RawSkill) (k : String) :
    findSkill (discover_skills sys usr proj) k =
      (lastWith (tagSkills proj SkillSource.Project) k).or
        ((lastWith (tagSkills usr SkillSource.User) k).or
          (lastWith (tagSkills sys SkillSource.System) k)) := by
  unfold discover_skills
  rw [findSkill_values _ (WFmap_foldl _ _ WFmap_nil), lookupId_foldl]
  have hnil : lookupId [] k = none := rfl
  rw [hnil, Option.or_none]
  unfold lastWith
  rw [List.reverse_append, List.reverse_append, List.find?_append,
      List.find?_append]

/-- C1: for all per-tier inputs, discovery produces a collection with
pairwise-distinct manifest ids; the surviving entry for an id is the last
insertion for that id, which belongs to the highest-precedence tier
containing the id (Project over User over System) and is an unmodified
element of that tier's tagged collection (the lower-tier instance is
discarded whole, never merged field-by-field). -/
theorem discover_skills_spec (sys usr proj : List RawSkill) (k : String) :
    ((discover_skills sys usr proj).map (fun s => s.manifest.id)).Nodup
    ∧ findSkill (discover_skills sys usr proj) k =
        (lastWith (tagSkills proj SkillSource.Project) k).or
          ((lastWith (tagSkills usr SkillSource.User) k).or
            (lastWith (tagSkills sys SkillSource.System) k))
    ∧ (hasIdR proj k = true →
        ∃ s, findSkill (discover_skills sys usr proj) k = some s ∧
          s.source = SkillSource.Project ∧
          s ∈ tagSkills proj SkillSource.Project ∧ s.manifest.id = k)
    ∧ (hasIdR proj k = false → hasIdR usr k = true →
        ∃ s, findSkill (discover_skills sys usr proj) k = some s ∧
          s.source = SkillSource.User ∧
          s ∈ tagSkills usr SkillSource.User ∧ s.manifest.id = k)
    ∧ (hasIdR proj k = false → hasIdR usr k = false → hasIdR sys k = true →
        ∃ s, findSkill (discover_skills sys usr proj) k = some s ∧
          s.source = SkillSource.System ∧
          s ∈ tagSkills sys SkillSource.System ∧ s.manifest.id = k) := by
  have heq := discover_findSkill sys usr proj k
  refine ⟨?_, heq, ?_, ?_, ?_⟩
  · unfold discover_skills
    have hwf := WFmap_foldl
      (tagSkills sys SkillSource.System ++ tagSkills usr SkillSource.User ++
       tagSkills proj SkillSource.Project) [] WFmap_nil
    rw [List.map_map]
    have : ((tagSkills sys SkillSource.System ++ tagSkills usr SkillSource.User ++
        tagSkills proj SkillSource.Project).foldl insertSkill []).map
          ((fun s => s.manifest.id) ∘ Prod.snd) =
        ((tagSkills sys SkillSource.System ++ tagSkills usr SkillSource.User ++
        tagSkills proj SkillSource.Project).foldl insertSkill []).map Prod.fst := by
      apply List.map_congr_left
      intro p hp
      exact (hwf.2 p hp).symm
    rw [this]
    exact hwf.1
  · intro hp
    obtain ⟨s, hs⟩ := lastWith_tagSkills_isSome proj SkillSource.Project k hp
    obtain ⟨hmem, hsrc, hid⟩ := lastWith_tagSkills_spec proj SkillSource.Project k s hs
    exact ⟨s, by rw [heq, hs]; rfl, hsrc, hmem, hid⟩
  · intro hpf hu
    obtain ⟨s, hs⟩ := lastWith_tagSkills_isSome usr SkillSource.User k hu
    obtain ⟨hmem, hsrc, hid⟩ := lastWith_tagSkills_spec usr SkillSource.User k s hs
    refine ⟨s, ?_, hsrc, hmem, hid⟩
    rw [heq, lastWith_tagSkills_eq_none proj SkillSource.Project k hpf,
        Option.none_or, hs]
    rfl
  · intro hpf huf hsy
    obtain ⟨s, hs⟩ := lastWith_tagSkills_isSome sys SkillSource.System k hsy
    obtain ⟨hmem, hsrc, hid⟩ := lastWith_tagSkills_spec sys SkillSource.System k s hs
    refine ⟨s, ?_, hsrc, hmem, hid⟩
    rw [heq, lastWith_tagSkills_eq_none proj SkillSource.Project k hpf,
        lastWith_tagSkills_eq_none usr SkillSource.User k huf,
        Option.none_or, Option.none_or, hs]

/-- C8: for every skill slice and every scorer, filtering with the empty
query returns exactly the indices from zero to the length in the original
collection order, unconditionally and with no reordering by score. -/
theorem filter_skills_empty_query (fieldScore : String → String → Option Nat)
    (skills : List Skill) :
    filter_skills fieldScore "" skills = List.range skills.length := rfl

theorem enumFrom_filter_map_fst (p : Skill → Bool) (l : List Skill) :
    ∀ n : Nat,
    ((List.enumFrom n l).filter (fun x => p x.2)).map Prod.fst =
      (List.range' n l.length).filter (fun i => predAt l p (i - n)) := by
  induction l with
  | nil => intro n; rfl
  | cons a t ih =>
    intro n
    rw [List.enumFrom_cons, show (a :: t).length = t.length + 1 from rfl,
        List.range'_succ]
    rw [List.filter_cons, List.filter_cons]
    have hqa : predAt (a :: t) p (n - n) = p a := by
      rw [Nat.sub_self]
      rfl
    have htail : ((List.enumFrom (n + 1) t).filter (fun x => p x.2)).map Prod.fst
        = (List.range' (n + 1) t.length).filter
            (fun i => predAt (a :: t) p (i - n)) := by
      rw [ih (n + 1)]
      apply List.filter_congr
      intro i hi
      have hge : n + 1 ≤ i := (List.mem_range'_1.mp hi).1
      have h1 : i - n = (i - (n + 1)) + 1 := by omega
      rw [h1]
      rfl
    by_cases hp : p a = true
    · simp only [hp, if_true, hqa, List.map_cons, htail]
    · simp only [Bool.not_eq_true] at hp
      simp only [hp, hqa, Bool.false_eq_true, if_false, htail]

theorem enum_filter_map_fst (p : Skill → Bool) (l : List Skill) :
    ((l.enum.filter (fun x => p x.2)).map Prod.fst) =
      (List.range l.length).filter (predAt l p) := by
  have h := enumFrom_filter_map_fst p l 0
  rw [List.range_eq_range']
  have he : l.enum = List.enumFrom 0 l := rfl
  rw [he, h]
  apply List.filter_congr
  intro i _
  rw [Nat.sub_zero]

theorem viewFilteredCode_eq (s : AppState) :
    viewFilteredCode s = viewAdmittedSpec s := by
  unfold viewFilteredCode viewAdmittedSpec
  cases hv : s.view_mode with
  | All =>
    symm
    rw [List.filter_eq_self]
    intro i hi
    rw [List.mem_range] at hi
    unfold predAt viewPred
    rw [List.get?_eq_get hi, hv]
    rfl
  | Favorites =>
    rw [enum_filter_map_fst (fun sk => s.favorites.contains sk.manifest.id)
        s.skills]
    apply List.filter_congr
    intro i _
    unfold predAt viewPred
    rw [hv]
  | Recent =>
    rw [enum_filter_map_fst
        (fun sk => (s.recent.take s.config.max_recent_skills).contains
          sk.manifest.id) s.skills]
    apply List.filter_congr
    intro i _
    unfold predAt viewPred
    rw [hv]

/-- C3: apply_view_filter first computes the view-admitted indices (All =
every index, Favorites = id in the favorites set, Recent = id among the
first max_recent_skills entries of the recency list); with a non-empty
query the filtered view is the fuzzy ranking restricted to the admitted
set (retaining the ranking's relative order), with an empty query it is
exactly the admitted set; afterwards selection and list scroll are both
zero. -/
theorem apply_view_filter_spec (fieldScore : String → String → Option Nat)
    (s : AppState) :
    (apply_view_filter fieldScore s).filtered_skills =
      (if s.search_query.isEmpty then viewAdmittedSpec s
       else (filter_skills fieldScore s.search_query s.skills).filter
              (fun i => (viewAdmittedSpec s).contains i))
    ∧ (apply_view_filter fieldScore s).selected_index = 0
    ∧ (apply_view_filter fieldScore s).scroll_offset = 0 := by
  unfold apply_view_filter
  refine ⟨?_, rfl, rfl⟩
  simp only [viewFilteredCode_eq]

theorem selInv_apply_view_filter (fieldScore : String → String → Option Nat)
    (s : AppState) : SelInv (apply_view_filter fieldScore s) := by
  constructor
  · intro h
    have hlen : 0 < (apply_view_filter fieldScore s).filtered_skills.length :=
      List.length_pos.mpr h
    exact hlen
  · intro _
    rfl

theorem pullScrollToSelection_fields (s : AppState) :
    (pullScrollToSelection s).selected_index = s.selected_index
    ∧ (pullScrollToSelection s).filtered_skills = s.filtered_skills := by
  unfold pullScrollToSelection
  split
  · exact ⟨rfl, rfl⟩
  · exact ⟨rfl, rfl⟩

theorem resetScrollOnWrap_fields (s : AppState) :
    (resetScrollOnWrap s).selected_index = s.selected_index
    ∧ (resetScrollOnWrap s).filtered_skills = s.filtered_skills := by
  unfold resetScrollOnWrap
  split
  · exact ⟨rfl, rfl⟩
  · exact ⟨rfl, rfl⟩

theorem selInv_move_selection_up (s : AppState) (h : SelInv s) :
    SelInv (move_selection_up s) := by
  unfold move_selection_up
  by_cases he : s.filtered_skills.isEmpty = true
  · rw [if_pos he]
    exact h
  · rw [if_neg he]
    have hne : s.filtered_skills ≠ [] := by
      intro hnil
      exact he (by rw [hnil]; rfl)
    have hlen : 0 < s.filtered_skills.length := List.length_pos.mpr hne
    have hsel := h.1 hne
    obtain ⟨hps, hpf⟩ := pullScrollToSelection_fields
      { s with selected_index :=
          if s.selected_index = 0 then s.filtered_skills.length - 1
          else s.selected_index - 1 }
    refine ⟨fun _ => ?_, fun hnil => ?_⟩
    · rw [hps, hpf]
      show (if s.selected_index = 0 then s.filtered_skills.length - 1
            else s.selected_index - 1) < s.filtered_skills.length
      by_cases h0 : s.selected_index = 0
      · rw [if_pos h0]
        omega
      · rw [if_neg h0]
        omega
    · rw [hpf] at hnil
      exact absurd hnil hne

theorem selInv_move_selection_down (s : AppState) (h : SelInv s) :
    SelInv (move_selection_down s) := by
  unfold move_selection_down
  by_cases he : s.filtered_skills.isEmpty = true
  · rw [if_pos he]
    exact h
  · rw [if_neg he]
    have hne : s.filtered_skills ≠ [] := by
      intro hnil
      exact he (by rw [hnil]; rfl)
    have hlen : 0 < s.filtered_skills.length := List.length_pos.mpr hne
    obtain ⟨hps, hpf⟩ := resetScrollOnWrap_fields
      { s with selected_index :=
          (s.selected_index + 1) % s.filtered_skills.length }
    refine ⟨fun _ => ?_, fun hnil => ?_⟩
    · rw [hps, hpf]
      show (s.selected_index + 1) % s.filtered_skills.length <
        s.filtered_skills.length
      exact Nat.mod_lt _ hlen
    · rw [hpf] at hnil
      exact absurd hnil hne

theorem update_scroll_offset_fields (s : AppState) (h : Nat) :
    (update_scroll_offset s h).selected_index = s.selected_index
    ∧ (update_scroll_offset s h).filtered_skills = s.filtered_skills := by
  unfold update_scroll_offset
  split
  · exact ⟨rfl, rfl⟩
  · split
    · exact ⟨rfl, rfl⟩
    · split
      · exact ⟨rfl, rfl⟩
      · exact ⟨rfl, rfl⟩

theorem selInv_move_selection_page_down (s : AppState) (n : Nat) (h : SelInv s) :
    SelInv (move_selection_page_down s n) := by
  unfold move_selection_page_down
  by_cases he : s.filtered_skills.isEmpty = true
  · rw [if_pos he]
    exact h
  · rw [if_neg he]
    have hne : s.filtered_skills ≠ [] := by
      intro hnil
      exact he (by rw [hnil]; rfl)
    have hlen : 0 < s.filtered_skills.length := List.length_pos.mpr hne
    obtain ⟨hsel, hfil⟩ := update_scroll_offset_fields
      { s with
        selected_index := min (s.selected_index + n)
          (s.filtered_skills.length - 1) } n
    constructor
    · intro _
      rw [hsel, hfil]
      show min (s.selected_index + n) (s.filtered_skills.length - 1) <
        s.filtered_skills.length
      have : min (s.selected_index + n) (s.filtered_skills.length - 1) ≤
          s.filtered_skills.length - 1 := Nat.min_le_right _ _
      omega
    · intro hnil
      rw [hfil] at hnil
      exact absurd hnil hne

theorem selInv_move_selection_page_up (s : AppState) (n : Nat) (h : SelInv s) :
    SelInv (move_selection_page_up s n) := by
  unfold move_selection_page_up
  by_cases he : s.filtered_skills.isEmpty = true
  · rw [if_pos he]
    exact h
  · rw [if_neg he]
    have hne : s.filtered_skills ≠ [] := by
      intro hnil
      exact he (by rw [hnil]; rfl)
    obtain ⟨hsel, hfil⟩ := update_scroll_offset_fields
      { s with selected_index := s.selected_index - n } n
    constructor
    · intro _
      rw [hsel, hfil]
      show s.selected_index - n < s.filtered_skills.length
      have := h.1 hne
      omega
    · intro hnil
      rw [hfil] at hnil
      exact absurd hnil hne

/-- C4: every named state mutation (query replacement, character append,
backspace, re-filter, view-mode cycle, single-step and page selection
moves) preserves the selection invariant, and every operation that
re-filters leaves the selection at index zero. -/
theorem appstate_mutations_preserve_selection
    (fieldScore : String → String → Option Nat) (s : AppState) (h : SelInv s)
    (q : String) (c : Char) (n : Nat) :
    SelInv (set_search_query fieldScore s q)
    ∧ SelInv (append_to_search fieldScore s c)
    ∧ SelInv (remove_from_search fieldScore s)
    ∧ SelInv (apply_view_filter fieldScore s)
    ∧ SelInv (cycle_view_mode s)
    ∧ SelInv (move_selection_up s)
    ∧ SelInv (move_selection_down s)
    ∧ SelInv (move_selection_page_up s n)
    ∧ SelInv (move_selection_page_down s n)
    ∧ (apply_view_filter fieldScore s).selected_index = 0
    ∧ (set_search_query fieldScore s q).selected_index = 0
    ∧ (append_to_search fieldScore s c).selected_index = 0
    ∧ (s.search_query.isEmpty = false →
        (remove_from_search fieldScore s).selected_index = 0) := by
  refine ⟨selInv_apply_view_filter _ _, selInv_apply_view_filter _ _, ?_,
          selInv_apply_view_filter _ _, h, selInv_move_selection_up s h,
          selInv_move_selection_down s h, selInv_move_selection_page_up s n h,
          selInv_move_selection_page_down s n h, rfl, rfl, rfl, ?_⟩
  · unfold remove_from_search
    split
    · exact h
    · exact selInv_apply_view_filter _ _
  · intro hq
    unfold remove_from_search
    rw [if_neg (by rw [hq]; exact Bool.false_ne_true)]
    rfl

/-- C10: in Recent view mode with an empty query, the filtered view lists
the admitted indices in ascending collection order, and it depends on the
recency list only through the membership set formed by its first
max_recent_skills entries, not through their order: replacing the recency
list by any list with the same first-N membership leaves the filtered
view unchanged. -/
theorem recent_view_ascending_membership_only
    (fieldScore : String → String → Option Nat) (s : AppState)
    (recent2 : List String) (h1 : s.view_mode = ViewMode.Recent)
    (h2 : s.search_query = "")
    (h3 : ∀ id : String,
      (s.recent.take s.config.max_recent_skills).contains id =
      (recent2.take s.config.max_recent_skills).contains id) :
    ((apply_view_filter fieldScore s).filtered_skills).Sorted (· < ·)
    ∧ (apply_view_filter fieldScore s).filtered_skills =
        (apply_view_filter fieldScore { s with recent := recent2 }).filtered_skills := by
  have hq : s.search_query.isEmpty = true := by
    rw [h2]
    rfl
  have hfe : (apply_view_filter fieldScore s).filtered_skills =
      viewAdmittedSpec s := by
    unfold apply_view_filter
    rw [viewFilteredCode_eq]
    simp [hq]
  have hfe2 : (apply_view_filter fieldScore { s with recent := recent2 }).filtered_skills =
      viewAdmittedSpec { s with recent := recent2 } := by
    unfold apply_view_filter
    rw [viewFilteredCode_eq]
    have hq2 : ({ s with recent := recent2 } : AppState).search_query.isEmpty = true := hq
    rw [if_pos hq2]
  constructor
  · rw [hfe]
    unfold viewAdmittedSpec List.Sorted
    exact List.Pairwise.sublist (List.filter_sublist _) (List.pairwise_lt_range _)
  · rw [hfe, hfe2]
    unfold viewAdmittedSpec
    rw [show ({ s with recent := recent2 } : AppState).skills = s.skills from rfl]
    apply List.filter_congr
    intro i _
    unfold predAt
    cases s.skills.get? i with
    | none => rfl
    | some sk =>
      show viewPred s sk = viewPred { s with recent := recent2 } sk
      unfold viewPred
      rw [show ({ s with recent := recent2 } : AppState).view_mode = s.view_mode from rfl,
          h1]
      exact h3 sk.manifest.id

/-- C6: add_to_recent removes any existing occurrence of the id, inserts
the id at the front, and truncates to the configured maximum; on a
duplicate-free list the result is duplicate-free, never exceeds
max_recent_skills entries, starts with the added id whenever the maximum
is positive, and re-adding an identifier already present never grows the
list. -/
theorem add_to_recent_spec (s : AppState) (skill_id : String)
    (h : s.recent.Nodup) :
    (add_to_recent s skill_id).recent =
      (skill_id :: s.recent.filter (fun x => x ≠ skill_id)).take
        s.config.max_recent_skills
    ∧ (add_to_recent s skill_id).recent.Nodup
    ∧ (add_to_recent s skill_id).recent.length ≤ s.config.max_recent_skills
    ∧ (0 < s.config.max_recent_skills →
        (add_to_recent s skill_id).recent.head? = some skill_id)
    ∧ (skill_id ∈ s.recent →
        (add_to_recent s skill_id).recent.length ≤ s.recent.length) := by
  have heq : (add_to_recent s skill_id).recent =
      (skill_id :: s.recent.filter (fun x => x ≠ skill_id)).take
        s.config.max_recent_skills := by
    unfold add_to_recent
    split
    · rfl
    · rename_i hle
      rw [List.take_of_length_le (by omega)]
  refine ⟨heq, ?_, ?_, ?_, ?_⟩
  · rw [heq]
    apply List.Sublist.nodup (List.take_sublist _ _)
    rw [List.nodup_cons]
    constructor
    · intro hm
      have := (List.mem_filter.mp hm).2
      simp at this
    · exact h.filter _
  · rw [heq, List.length_take]
    exact min_le_left _ _
  · intro hpos
    rw [heq, List.head?_take, if_neg (by omega)]
    rfl
  · intro hmem
    have hflt : (s.recent.filter (fun x => x ≠ skill_id)).length <
        s.recent.length :=
      List.length_filter_lt_length_iff_exists.mpr ⟨skill_id, hmem, by simp⟩
    rw [heq, List.length_take]
    have hc : (skill_id :: s.recent.filter (fun x => x ≠ skill_id)).length =
        (s.recent.filter (fun x => x ≠ skill_id)).length + 1 := rfl
    omega

/-- C7 (counterexample): after two single-step downward moves on a
freshly filtered three-element view the selection index is two while the
scroll offset remains zero, so with visible height two the claimed window
bound (selection below scroll_offset plus visible_height) fails: the
single-step moves never push the offset forward. -/
theorem selection_window_claim_false :
    (move_selection_down (move_selection_down scrollDemoState)).filtered_skills ≠ []
    ∧ (move_selection_down (move_selection_down scrollDemoState)).selected_index = 2
    ∧ (move_selection_down (move_selection_down scrollDemoState)).scroll_offset = 0
    ∧ ¬ ((move_selection_down (move_selection_down scrollDemoState)).selected_index <
          (move_selection_down (move_selection_down scrollDemoState)).scroll_offset + 2) := by
  decide

theorem update_scroll_offset_window (s : AppState) (visible_height : Nat)
    (hpos : 0 < visible_height) :
    (update_scroll_offset s visible_height).scroll_offset ≤
      (update_scroll_offset s visible_height).selected_index
    ∧ (update_scroll_offset s visible_height).selected_index <
      (update_scroll_offset s visible_height).scroll_offset + visible_height := by
  unfold update_scroll_offset
  rw [if_neg (by omega : ¬ visible_height = 0)]
  by_cases h1 : s.selected_index < s.scroll_offset
  · rw [if_pos h1]
    constructor
    · show s.selected_index ≤ s.selected_index
      omega
    · show s.selected_index < s.selected_index + visible_height
      omega
  · rw [if_neg h1]
    by_cases h2 : s.scroll_offset + visible_height ≤ s.selected_index
    · rw [if_pos h2]
      constructor
      · show s.selected_index - visible_height + 1 ≤ s.selected_index
        omega
      · show s.selected_index <
          s.selected_index - visible_height + 1 + visible_height
        omega
    · rw [if_neg h2]
      constructor
      · show s.scroll_offset ≤ s.selected_index
        omega
      · show s.selected_index < s.scroll_offset + visible_height
        omega

/-- C7 (amended): the page movement operations, which run the scroll
maintenance of update_scroll_offset with the page size as the visible
height, leave the selection inside the visible window whenever the page
size is positive and the filtered view is non-empty: the offset is pulled
down to the selection when the selection is above it and pushed forward
by the overshoot when the selection passed the window; the single-step
moves perform only the pull-down (up) or a reset on wrap (down), so the
upper window bound can fail after them. -/
theorem page_moves_keep_selection_in_window (s : AppState) (page_size : Nat)
    (h1 : s.filtered_skills ≠ []) (h2 : 0 < page_size) :
    ((move_selection_page_down s page_size).scroll_offset ≤
        (move_selection_page_down s page_size).selected_index
      ∧ (move_selection_page_down s page_size).selected_index <
        (move_selection_page_down s page_size).scroll_offset + page_size)
    ∧ ((move_selection_page_up s page_size).scroll_offset ≤
        (move_selection_page_up s page_size).selected_index
      ∧ (move_selection_page_up s page_size).selected_index <
        (move_selection_page_up s page_size).scroll_offset + page_size) := by
  have hne : ¬ s.filtered_skills.isEmpty = true := by
    intro hh
    exact h1 (List.isEmpty_iff.mp hh)
  constructor
  · unfold move_selection_page_down
    rw [if_neg hne]
    exact update_scroll_offset_window _ _ h2
  · unfold move_selection_page_up
    rw [if_neg hne]
    exact update_scroll_offset_window _ _ h2

theorem append_le_limit (b : OutputBuffer) (data : List Nat)
    (h : b.buffer.length ≤ b.size_limit) :
    (b.append data).buffer.length ≤ b.size_limit
    ∧ (b.append data).size_limit = b.size_limit := by
  unfold OutputBuffer.append
  by_cases h1 : b.size_limit ≤ b.buffer.length
  · rw [if_pos h1]
    exact ⟨h, rfl⟩
  · rw [if_neg h1]
    by_cases h2 : data.length ≤ b.size_limit - b.buffer.length
    · rw [if_pos h2]
      refine ⟨?_, rfl⟩
      show (b.buffer ++ data).length ≤ b.size_limit
      rw [List.length_append]
      omega
    · rw [if_neg h2]
      refine ⟨?_, rfl⟩
      show (b.buffer ++ data.take (b.size_limit - b.buffer.length)).length ≤
        b.size_limit
      rw [List.length_append, List.length_take]
      have := Nat.min_le_left (b.size_limit - b.buffer.length) data.length
      omega

theorem appendAll_le_limit (datas : List (List Nat)) (b : OutputBuffer)
    (h : b.buffer.length ≤ b.size_limit) :
    (appendAll b datas).buffer.length ≤ b.size_limit := by
  induction datas generalizing b with
  | nil => exact h
  | cons d t ih =>
    obtain ⟨hle, hsl⟩ := append_le_limit b d h
    have := ih (b.append d) (by rw [hsl]; exact hle)
    rw [hsl] at this
    exact this

/-- C5: the buffer length never exceeds the configured ceiling over any
sequence of appends from a fresh buffer; an append on a buffer whose
length has reached the ceiling leaves the contents unchanged; the
truncation flag is never cleared by an append; and the concrete scenario
with ceiling ten holds: appending the bytes of Hello and then of
space-world yields length ten, the bytes of Hello-worl, and the
truncation flag set. -/
theorem output_buffer_spec (limit : Nat) (datas : List (List Nat))
    (b : OutputBuffer) (data : List Nat) :
    (appendAll (OutputBuffer.with_limit limit) datas).buffer.length ≤ limit
    ∧ (b.size_limit ≤ b.buffer.length → (b.append data).buffer = b.buffer)
    ∧ (b.truncated = true → (b.append data).truncated = true)
    ∧ ((((OutputBuffer.with_limit 10).append (strBytes "Hello")).append
          (strBytes " world")).buffer.length = 10
       ∧ (((OutputBuffer.with_limit 10).append (strBytes "Hello")).append
            (strBytes " world")).buffer = strBytes "Hello worl"
       ∧ (((OutputBuffer.with_limit 10).append (strBytes "Hello")).append
            (strBytes " world")).truncated = true) := by
  refine ⟨appendAll_le_limit datas _ (by simp [OutputBuffer.with_limit]), ?_, ?_, ?_⟩
  · intro hfull
    unfold OutputBuffer.append
    rw [if_pos hfull]
  · intro htr
    unfold OutputBuffer.append
    by_cases h1 : b.size_limit ≤ b.buffer.length
    · rw [if_pos h1]
    · rw [if_neg h1]
      by_cases h2 : data.length ≤ b.size_limit - b.buffer.length
      · rw [if_pos h2]
        exact htr
      · rw [if_neg h2]
  · refine ⟨by decide, by decide, by decide⟩

/-- C9: the prepared environment always carries PANE_ID, PANE_NAME and
PANE_CONFIG_PATH; PANE_CWD is present exactly when pass_cwd is set,
PANE_GIT_ROOT is the detected git root when pass_git_root is set and
absent when the flag is clear, and PANE_PROJECT_NAME is the derived
project name when pass_project_name is set and absent when the flag is
clear. -/
theorem prepare_environment_spec (ctx : SkillContext) (cc : ContextConfig) :
    envLookup (prepare_environment ctx cc) "PANE_ID" = some ctx.skill_id
    ∧ envLookup (prepare_environment ctx cc) "PANE_NAME" = some ctx.skill_name
    ∧ envLookup (prepare_environment ctx cc) "PANE_CONFIG_PATH" =
        some ctx.config_path
    ∧ envLookup (prepare_environment ctx cc) "PANE_CWD" =
        (if cc.pass_cwd then some ctx.cwd else none)
    ∧ envLookup (prepare_environment ctx cc) "PANE_GIT_ROOT" =
        (if cc.pass_git_root then ctx.git_root else none)
    ∧ envLookup (prepare_environment ctx cc) "PANE_PROJECT_NAME" =
        (if cc.pass_project_name then ctx.project_name else none) := by
  obtain ⟨pc, pg, pp, ps⟩ := cc
  obtain ⟨sid, sname, cwd, groot, pname, cpath, args⟩ := ctx
  cases pc <;> cases pg <;> cases pp <;> cases groot <;> cases pname <;>
    exact ⟨rfl, rfl, rfl, rfl, rfl, rfl⟩

/-- Witness for C1 at the three one-skill tiers sharing the id x: the
copy from the Project tier survives. -/
theorem discover_skills_spec_witness :
    hasIdR [tierRawP] "x" = true ∧
    (∃ s, findSkill (discover_skills [tierRawS] [tierRawU] [tierRawP]) "x" = some s ∧
      s.source = SkillSource.Project ∧
      s ∈ tagSkills [tierRawP] SkillSource.Project ∧ s.manifest.id = "x") :=
  ⟨by decide,
   (discover_skills_spec [tierRawS] [tierRawU] [tierRawP] "x").2.2.1 (by decide)⟩

/-- Witness for C4 at a concrete three-skill state satisfying the
selection invariant. -/
theorem appstate_mutations_preserve_selection_witness :
    SelInv scrollDemoState ∧ SelInv (move_selection_up scrollDemoState) :=
  ⟨by decide,
   (appstate_mutations_preserve_selection noScore scrollDemoState (by decide)
     "q" 'c' 2).2.2.2.2.2.1⟩

theorem output_buffer_spec_witness :
    (fullBuf.size_limit ≤ fullBuf.buffer.length ∧
      (OutputBuffer.append fullBuf [9]).buffer = fullBuf.buffer)
    ∧ (fullBuf.truncated = true ∧
      (OutputBuffer.append fullBuf [9]).truncated = true) :=
  ⟨⟨by decide, (output_buffer_spec 10 [] fullBuf [9]).2.1 (by decide)⟩,
   ⟨rfl, (output_buffer_spec 10 [] fullBuf [9]).2.2.1 rfl⟩⟩

/-- Witness for C6: re-adding a keeps the recency list duplicate-free. -/
theorem add_to_recent_spec_witness :
    recentDemoState.recent.Nodup ∧ (add_to_recent recentDemoState "a").recent.Nodup :=
  ⟨by decide, (add_to_recent_spec recentDemoState "a" (by decide)).2.1⟩

/-- Witness for C7 (amended) at the concrete state with page size two. -/
theorem page_moves_keep_selection_in_window_witness :
    scrollDemoState.filtered_skills ≠ [] ∧ 0 < 2 ∧
    ((move_selection_page_down scrollDemoState 2).scroll_offset ≤
      (move_selection_page_down scrollDemoState 2).selected_index) :=
  ⟨by decide, by decide,
   ((page_moves_keep_selection_in_window scrollDemoState 2 (by decide)
      (by decide)).1).1⟩

/-- Witness for C10: the filtered view in Recent mode is ascending. -/
theorem recent_view_ascending_membership_only_witness :
    recentViewDemoState.view_mode = ViewMode.Recent ∧
    ((apply_view_filter noScore recentViewDemoState).filtered_skills).Sorted (· < ·) :=
  ⟨rfl,
   (recent_view_ascending_membership_only noScore recentViewDemoState ["a"] rfl rfl
     (fun _ => rfl)).1⟩

end Pane
